import Mathlib

/-!
Shallow embedding of the annotated-text-to-docx compiler of the
convert-img-to-word repository (src/unnamed/part_000: `cropImage` and
`generateAndDownloadDocx`, together with the data model of src/types.ts),
and proofs of the specified properties.

Strings are modelled as `List Char`; JavaScript numbers arising from the
coordinate arithmetic are modelled exactly as rationals (`ℚ`), and the
non-negative integers produced by `parseInt` on a `\d+` capture as `ℕ`.
-/

namespace ImgToWord

/-- `ProcessingStatus` enum from src/types.ts. -/
inductive ProcessingStatus
  | IDLE
  | PROCESSING
  | COMPLETED
  | ERROR
deriving DecidableEq, Repr

/-- A browser `File` value as observed by `cropImage`: its `name`, the
intrinsic pixel dimensions `img.width`/`img.height` the decoded image
reports, whether the browser can decode it (`img.onload` fires rather than
`img.onerror`), and whether the canvas rasterization pipeline
(`getContext('2d')` and `toBlob`) succeeds on it. -/
structure SourceFile where
  name : List Char
  width : ℕ
  height : ℕ
  decodes : Bool
  rasterOk : Bool
deriving DecidableEq, Repr

/-- `UploadedFile` interface from src/types.ts. -/
structure UploadedFile where
  id : List Char
  file : SourceFile
  previewUrl : List Char
  status : ProcessingStatus
  extractedText : Option (List Char)
  errorMessage : Option (List Char)
deriving DecidableEq, Repr

/-- The distinct rejection reasons of `cropImage`:
`DecodeError` is the `img.onerror` path ("Failed to load image for cropping"),
`DegenerateRegion` is the `realW <= 0 || realH <= 0` path
("Invalid crop dimensions"), and `RasterFailure` covers the null canvas
context ("Could not get canvas context") and null blob ("Crop failed")
paths. -/
inductive CropError
  | DegenerateRegion
  | DecodeError
  | RasterFailure
deriving DecidableEq, Repr

/-- The result of a successful `cropImage` call: the pixel-space rectangle
`(realX, realY, realW, realH)` that was drawn onto the canvas and encoded as
PNG.  The PNG bytes themselves are opaque (produced by the external canvas
encoder), so the region is identified by its rectangle. -/
structure CroppedRegion where
  realX : ℚ
  realY : ℚ
  realW : ℚ
  realH : ℚ
deriving DecidableEq, Repr

/-- `cropImage` from src/unnamed/part_000, instrumented with the number of
object-URL decode handles that are open (`URL.createObjectURL` opens one,
`URL.revokeObjectURL` closes it).  Given the count of handles open before the
call, it returns the result together with the count open after the promise
settles.  The branch structure follows the source exactly:

* `URL.createObjectURL(file)` opens a handle;
* if the image does not decode, `img.onerror` revokes the URL and rejects;
* on load, `realW`/`realH` are computed and, when either is `≤ 0`, the
  promise is rejected with "Invalid crop dimensions" — *without* revoking
  the URL (the `reject; return` does not pass through the `catch`);
* the null-context and null-blob rejections likewise return without
  revoking;
* on success `reader.onloadend` revokes the URL and resolves. -/
def cropImageH (fl : SourceFile) (ymin xmin ymax xmax : ℕ) (handles : ℕ) :
    Except CropError CroppedRegion × ℕ :=
  let opened := handles + 1
  if fl.decodes = false then
    (Except.error CropError.DecodeError, opened - 1)
  else
    let realX : ℚ := (xmin : ℚ) / 1000 * (fl.width : ℚ)
    let realY : ℚ := (ymin : ℚ) / 1000 * (fl.height : ℚ)
    let realW : ℚ := ((xmax : ℚ) - (xmin : ℚ)) / 1000 * (fl.width : ℚ)
    let realH : ℚ := ((ymax : ℚ) - (ymin : ℚ)) / 1000 * (fl.height : ℚ)
    if realW ≤ 0 ∨ realH ≤ 0 then
      (Except.error CropError.DegenerateRegion, opened)
    else if fl.rasterOk = false then
      (Except.error CropError.RasterFailure, opened)
    else
      (Except.ok ⟨realX, realY, realW, realH⟩, opened - 1)

/-- The value `cropImage` settles with, ignoring the handle bookkeeping. -/
def cropImage (fl : SourceFile) (ymin xmin ymax xmax : ℕ) :
    Except CropError CroppedRegion :=
  (cropImageH fl ymin xmin ymax xmax 0).1

/-! ## The marker scanner

`generateAndDownloadDocx` splits the annotated text with
`fullText.split(/(\[\[CROP:\d+,\d+,\d+,\d+\]\])/g)`, which returns the
inter-match pieces interleaved with the captured marker matches, and then
re-classifies each piece with the anchored
`/^\[\[CROP:(\d+),(\d+),(\d+),(\d+)\]\]$/`.  The scanner below implements
exactly that regex: the literal `[[CROP:`, four maximal non-empty digit
runs separated by commas, and the literal `]]`.  (Greedy `\d+` followed by
a non-digit literal never needs backtracking, so maximal-run matching
coincides with the regex semantics.) -/

/-- The characters of the literal `[[CROP:`. -/
def openTag : List Char := ['[', '[', 'C', 'R', 'O', 'P', ':']

/-- The characters of the literal `]]`. -/
def closeTag : List Char := [']', ']']

/-- Consume an expected literal at the head of the input; `none` when the
input does not start with it. -/
def dropLit : List Char → List Char → Option (List Char)
  | [], s => some s
  | _ :: _, [] => none
  | c :: p, x :: rest => if x = c then dropLit p rest else none

/-- Consume one expected character. -/
def expectChar (c : Char) : List Char → Option (List Char)
  | [] => none
  | x :: rest => if x = c then some rest else none

/-- The maximal digit run at the head of the input, and the remainder. -/
def takeDigits : List Char → List Char × List Char
  | [] => ([], [])
  | c :: rest =>
    if c.isDigit then
      let p := takeDigits rest
      (c :: p.1, p.2)
    else ([], c :: rest)

/-- `\d+`: the maximal digit run, required non-empty. -/
def matchDigits (s : List Char) : Option (List Char × List Char) :=
  match takeDigits s with
  | ([], _) => none
  | (d :: ds, r) => some (d :: ds, r)

/-- `parseInt` on a capture of `\d+`: the base-10 value of a digit string
(exact; JavaScript loses precision only beyond 2^53, far past the 0–1000
coordinate range). -/
def digitsToNat (ds : List Char) : ℕ :=
  ds.foldl (fun n c => 10 * n + (c.toNat - 48)) 0

/-- Match the marker regex at the head of `s`.  On success returns the four
coordinates in source order `(ymin, xmin, ymax, xmax)`, the exact matched
substring, and the remainder of the input. -/
def matchMarkerAt (s : List Char) :
    Option ((ℕ × ℕ × ℕ × ℕ) × List Char × List Char) :=
  match dropLit openTag s with
  | none => none
  | some r0 =>
    match matchDigits r0 with
    | none => none
    | some (d1, r1) =>
      match expectChar ',' r1 with
      | none => none
      | some r2 =>
        match matchDigits r2 with
        | none => none
        | some (d2, r3) =>
          match expectChar ',' r3 with
          | none => none
          | some r4 =>
            match matchDigits r4 with
            | none => none
            | some (d3, r5) =>
              match expectChar ',' r5 with
              | none => none
              | some r6 =>
                match matchDigits r6 with
                | none => none
                | some (d4, r7) =>
                  match dropLit closeTag r7 with
                  | none => none
                  | some r8 =>
                    some ((digitsToNat d1, digitsToNat d2, digitsToNat d3,
                           digitsToNat d4),
                      openTag ++ d1 ++ [','] ++ d2 ++ [','] ++ d3 ++ [','] ++
                        d4 ++ closeTag, r8)

/-- The splitting loop of `String.prototype.split` with the capturing marker
regex: scan left to right; at each position, if the marker matches, emit the
accumulated inter-match text and the match, and resume after it; otherwise
advance one character.  `fuel` is an upper bound on the remaining scan
length (the recursion consumes at least one character per step, so
`fuel = s.length` never runs out); `acc` holds the pending inter-match text
in reverse. -/
def splitCropAux : ℕ → List Char → List Char → List (List Char)
  | 0, acc, s => [acc.reverse ++ s]
  | _ + 1, acc, [] => [acc.reverse]
  | fuel + 1, acc, c :: rest =>
    match matchMarkerAt (c :: rest) with
    | some (_, matched, rest2) => acc.reverse :: matched :: splitCropAux fuel [] rest2
    | none => splitCropAux fuel (c :: acc) rest

/-- `fullText.split(/(\[\[CROP:\d+,\d+,\d+,\d+\]\])/g)`: the pieces of the
input around every marker match, the matches themselves included (empty
pieces included, exactly as in JavaScript). -/
def splitCrop (s : List Char) : List (List Char) :=
  splitCropAux s.length [] s

/-- `part.match(/^\[\[CROP:(\d+),(\d+),(\d+),(\d+)\]\]$/)`: the four parsed
coordinates when the whole string is one marker. -/
def parseMarker (p : List Char) : Option (ℕ × ℕ × ℕ × ℕ) :=
  match matchMarkerAt p with
  | some (co, _, rest) => if rest = [] then some co else none
  | none => none

/-- A parsed segment of the annotated text: literal text, or a crop marker
carrying its coordinates `(ymin, xmin, ymax, xmax)` together with the
original matched substring. -/
inductive Segment
  | text (content : List Char)
  | crop (ymin xmin ymax xmax : ℕ) (orig : List Char)
deriving DecidableEq, Repr

/-- The underlying substring of the input a segment came from. -/
def Segment.source : Segment → List Char
  | .text s => s
  | .crop _ _ _ _ s => s

/-- How the main loop of `generateAndDownloadDocx` sees one split piece:
empty pieces are skipped (`if (!part) continue`), the rest are classified by
the anchored marker regex. -/
def classifyPart (p : List Char) : Option Segment :=
  if p = [] then none
  else
    match parseMarker p with
    | some (a, b, c, d) => some (Segment.crop a b c d p)
    | none => some (Segment.text p)

/-- The segment sequence of an annotated text, as the main loop of
`generateAndDownloadDocx` sees it. -/
def segments (s : List Char) : List Segment :=
  (splitCrop s).filterMap classifyPart

/-! ## The layout assembler -/

/-- `MAX_PAGE_WIDTH = 500`, the safe page width in points. -/
def MAX_PAGE_WIDTH : ℚ := 500

/-- The height/width ratio for A4, `1.414`, named PAGE_ASPECT_RATIO in the
source. -/
def PAGE_ASPECT : ℚ := 1.414

/-- A document run pushed into `currentRuns`:
`textRun line` is `new TextRun({text: line, size: 24})`;
`missingImage` is `new TextRun({text: "[MISSING IMAGE]", color: "red",
bold: true})`; `imageRun` is `new ImageRun({data, transformation: {width,
height}, type: "png"})`. -/
inductive Run
  | textRun (text : List Char)
  | missingImage
  | imageRun (data : CroppedRegion) (width height : ℚ)
deriving DecidableEq, Repr

/-- A paragraph pushed into `docChildren`:
`title` is the "Extracted Content" title paragraph; `header t` is the
"Source: …" heading paragraph with text `t`; `body runs` is a flushed
`new Paragraph({children: currentRuns})`; `pageBreak` is the
`new Paragraph({children: [new TextRun({text: "", break: 1})]})` separator. -/
inductive Para
  | title
  | header (text : List Char)
  | body (runs : List Run)
  | pageBreak
deriving DecidableEq, Repr

/-- The assembled document: the `docChildren` of the single docx section. -/
structure Document where
  children : List Para
deriving DecidableEq, Repr

/-- The only hard failure of `generateAndDownloadDocx`:
`throw new Error("No text available to download.")`. -/
inductive GenError
  | NoContent
deriving DecidableEq, Repr

/-- The assembler state: the `docChildren` built so far and the open
`currentRuns` buffer. -/
abbrev AsmState := List Para × List Run

/-- `currentRuns.push(run)`. -/
def pushRun (r : Run) (st : AsmState) : AsmState :=
  (st.1, st.2 ++ [r])

/-- `flushParagraph()`: if `currentRuns` is non-empty, push it as one body
paragraph and reset the buffer. -/
def flushParagraph (st : AsmState) : AsmState :=
  if st.2 = [] then st else (st.1 ++ [Para.body st.2], [])

/-- `part.split('\n')` (split on every newline character, JavaScript
semantics: the empty string yields one empty piece). -/
def splitNl : List Char → List (List Char)
  | [] => [[]]
  | c :: rest =>
    let r := splitNl rest
    if c = '\n' then [] :: r
    else
      match r with
      | [] => [[c]]
      | l :: ls => (c :: l) :: ls

/-- The `lines.forEach((line, lineIndex) => …)` body: push every non-empty
line as a text run, and flush the paragraph at every boundary except after
the last line. -/
def processLines : List (List Char) → AsmState → AsmState
  | [], st => st
  | [l], st => if l = [] then st else pushRun (Run.textRun l) st
  | l :: l2 :: rest, st =>
    let st1 := if l = [] then st else pushRun (Run.textRun l) st
    processLines (l2 :: rest) (flushParagraph st1)

/-- Handling of a text part. -/
def processTextPart (p : List Char) (st : AsmState) : AsmState :=
  processLines (splitNl p) st

/-- Handling of a crop-tag part: attempt the crop; on success push an image
run sized proportionally to the normalized extent (floored at 20), on any
failure push the "[MISSING IMAGE]" run. -/
def processCropPart (fl : SourceFile) (ymin xmin ymax xmax : ℕ)
    (st : AsmState) : AsmState :=
  match cropImage fl ymin xmin ymax xmax with
  | Except.ok region =>
    let coordWidth : ℚ := (xmax : ℚ) - (xmin : ℚ)
    let coordHeight : ℚ := (ymax : ℚ) - (ymin : ℚ)
    let displayWidth : ℚ := coordWidth / 1000 * MAX_PAGE_WIDTH
    let displayHeight : ℚ := coordHeight / 1000 * (MAX_PAGE_WIDTH * PAGE_ASPECT)
    pushRun (Run.imageRun region (max 20 displayWidth) (max 20 displayHeight)) st
  | Except.error _ => pushRun Run.missingImage st

/-- The `for (let i = 0; i < parts.length; i++)` loop: skip empty parts,
classify each remaining part with the anchored marker regex, and process it
as a crop tag or as text. -/
def processParts (fl : SourceFile) : List (List Char) → AsmState → AsmState
  | [], st => st
  | p :: rest, st =>
    if p = [] then processParts fl rest st
    else
      match parseMarker p with
      | some (ymin, xmin, ymax, xmax) =>
        processParts fl rest (processCropPart fl ymin xmin ymax xmax st)
      | none => processParts fl rest (processTextPart p st)

/-- The literal `Source: ` prefix of every per-file header paragraph. -/
def sourceLabel : List Char := ['S', 'o', 'u', 'r', 'c', 'e', ':', ' ']

/-- The per-file body of the main loop (everything except the trailing
page-break decision): push the header paragraph, split the extracted text,
process every part, and flush the remaining buffer. -/
def processFile (f : UploadedFile) (paras : List Para) : List Para :=
  let paras1 := paras ++ [Para.header (sourceLabel ++ f.file.name)]
  let fullText := f.extractedText.getD []
  (flushParagraph (processParts f.file (splitCrop fullText) (paras1, []))).1

/-- The main loop over `validFiles`: process each file and append a
page-break paragraph after every file except the last. -/
def assembleFiles : List UploadedFile → List Para → List Para
  | [], paras => paras
  | f :: rest, paras =>
    let paras1 := processFile f paras
    match rest with
    | [] => paras1
    | _ :: _ => assembleFiles rest (paras1 ++ [Para.pageBreak])

/-- `f.extractedText && f.extractedText.length > 0`: the filter deciding
which uploaded files take part in the document. -/
def isEligible (f : UploadedFile) : Bool :=
  match f.extractedText with
  | some t => decide (0 < t.length)
  | none => false

/-- `generateAndDownloadDocx` from src/unnamed/part_000, up to the document
tree handed to the external `docx` encoder: filter the files with extracted
text, fail with `NoContent` when none remain, otherwise build the title
paragraph followed by every file's block. -/
def generateAndDownloadDocx (files : List UploadedFile) :
    Except GenError Document :=
  let validFiles := files.filter fun f => isEligible f
  if validFiles.length = 0 then Except.error GenError.NoContent
  else Except.ok ⟨assembleFiles validFiles [Para.title]⟩

/-- The paragraphs a single file contributes: its header paragraph followed
by its body paragraphs. -/
def fileBlock (f : UploadedFile) : List Para :=
  (flushParagraph (processParts f.file (splitCrop (f.extractedText.getD []))
    ([Para.header (sourceLabel ++ f.file.name)], []))).1

/-- The body paragraphs of a single file (its block without the header). -/
def bodyParas (f : UploadedFile) : List Para :=
  (flushParagraph (processParts f.file (splitCrop (f.extractedText.getD []))
    ([], []))).1

/-- The blocks of the given files joined with one page-break paragraph
between consecutive blocks and none after the last. -/
def joinBlocks : List UploadedFile → List Para
  | [] => []
  | [f] => fileBlock f
  | f :: g :: rest => fileBlock f ++ [Para.pageBreak] ++ joinBlocks (g :: rest)

/-- The exact text of a well-formed marker built from four digit strings:
`[[CROP:` d1 `,` d2 `,` d3 `,` d4 `]]`. -/
def markerText (d1 d2 d3 d4 : List Char) : List Char :=
  openTag ++ d1 ++ [','] ++ d2 ++ [','] ++ d3 ++ [','] ++ d4 ++ closeTag

/-- Is this paragraph a per-file header paragraph? -/
def isHeaderPara : Para → Bool
  | Para.header _ => true
  | _ => false

/-- The runs of a body paragraph (and `[]` for any other paragraph). -/
def runsOf : Para → List Run
  | Para.body rs => rs
  | _ => []

/-- Is this run an embedded image run? -/
def isImageRun : Run → Bool
  | Run.imageRun _ _ _ => true
  | _ => false

/-- The number of header paragraphs in a document. -/
def countHeaders (d : Document) : ℕ := (d.children.filter isHeaderPara).length

/-- The number of page-break paragraphs in a document. -/
def countPageBreaks (d : Document) : ℕ := d.children.count Para.pageBreak

/-- The number of image runs in a document. -/
def countImageRuns (d : Document) : ℕ :=
  ((d.children.map runsOf).flatten.filter isImageRun).length

/-! ## Lemmas about the marker scanner -/

theorem dropLit_eq {p s r : List Char} (h : dropLit p s = some r) :
    s = p ++ r := by
  induction p generalizing s with
  | nil =>
    simp only [dropLit, Option.some.injEq] at h
    simp [h]
  | cons c p ih =>
    cases s with
    | nil => simp [dropLit] at h
    | cons x rest =>
      by_cases hx : x = c
      · subst hx
        simp only [dropLit, if_pos rfl] at h
        simpa using ih h
      · simp [dropLit, hx] at h

theorem dropLit_self (p s : List Char) : dropLit p (p ++ s) = some s := by
  induction p with
  | nil => simp [dropLit]
  | cons c p ih => simp [dropLit, ih]

theorem expectChar_eq {c : Char} {s r : List Char} (h : expectChar c s = some r) :
    s = c :: r := by
  cases s with
  | nil => simp [expectChar] at h
  | cons x rest =>
    by_cases hx : x = c
    · subst hx
      simp only [expectChar, if_pos, Option.some.injEq] at h
      rw [h]
    · simp [expectChar, hx] at h

theorem takeDigits_eq : ∀ (s : List Char),
    s = (takeDigits s).1 ++ (takeDigits s).2 := by
  intro s
  induction s with
  | nil => simp [takeDigits]
  | cons c rest ih =>
    by_cases hc : c.isDigit
    · simp only [takeDigits, if_pos hc]
      exact congrArg (c :: ·) ih
    · simp [takeDigits, hc]

theorem matchDigits_eq {s ds r : List Char} (h : matchDigits s = some (ds, r)) :
    s = ds ++ r ∧ ds ≠ [] := by
  unfold matchDigits at h
  have he := takeDigits_eq s
  cases htd : takeDigits s with
  | mk ds0 r0 =>
    rw [htd] at he h
    cases ds0 with
    | nil => simp at h
    | cons d ds0 =>
      simp only [Option.some.injEq, Prod.mk.injEq] at h
      rw [← h.1, ← h.2]
      exact ⟨he, by simp⟩

theorem matchMarkerAt_eq {s : List Char} {co : ℕ × ℕ × ℕ × ℕ} {m r : List Char}
    (h : matchMarkerAt s = some (co, m, r)) : s = m ++ r ∧ m ≠ [] := by
  unfold matchMarkerAt at h
  cases h0 : dropLit openTag s with
  | none => rw [h0] at h; simp at h
  | some r0 =>
  rw [h0] at h; dsimp only at h
  cases h1 : matchDigits r0 with
  | none => rw [h1] at h; simp at h
  | some pr1 =>
  obtain ⟨d1, r1⟩ := pr1
  rw [h1] at h; dsimp only at h
  cases h2 : expectChar ',' r1 with
  | none => rw [h2] at h; simp at h
  | some r2 =>
  rw [h2] at h; dsimp only at h
  cases h3 : matchDigits r2 with
  | none => rw [h3] at h; simp at h
  | some pr3 =>
  obtain ⟨d2, r3⟩ := pr3
  rw [h3] at h; dsimp only at h
  cases h4 : expectChar ',' r3 with
  | none => rw [h4] at h; simp at h
  | some r4 =>
  rw [h4] at h; dsimp only at h
  cases h5 : matchDigits r4 with
  | none => rw [h5] at h; simp at h
  | some pr5 =>
  obtain ⟨d3, r5⟩ := pr5
  rw [h5] at h; dsimp only at h
  cases h6 : expectChar ',' r5 with
  | none => rw [h6] at h; simp at h
  | some r6 =>
  rw [h6] at h; dsimp only at h
  cases h7 : matchDigits r6 with
  | none => rw [h7] at h; simp at h
  | some pr7 =>
  obtain ⟨d4, r7⟩ := pr7
  rw [h7] at h; dsimp only at h
  cases h8 : dropLit closeTag r7 with
  | none => rw [h8] at h; simp at h
  | some r8 =>
  rw [h8] at h; dsimp only at h
  simp only [Option.some.injEq, Prod.mk.injEq] at h
  obtain ⟨-, hm, hr⟩ := h
  subst hr
  rw [dropLit_eq h0, (matchDigits_eq h1).1, expectChar_eq h2,
    (matchDigits_eq h3).1, expectChar_eq h4, (matchDigits_eq h5).1,
    expectChar_eq h6, (matchDigits_eq h7).1, dropLit_eq h8, ← hm]
  constructor
  · simp [openTag]
  · simp [openTag]

theorem splitCropAux_join : ∀ (fuel : ℕ) (acc s : List Char),
    (splitCropAux fuel acc s).flatten = acc.reverse ++ s := by
  intro fuel
  induction fuel with
  | zero => intro acc s; simp [splitCropAux]
  | succ n ih =>
    intro acc s
    cases s with
    | nil => simp [splitCropAux]
    | cons c rest =>
      cases hm : matchMarkerAt (c :: rest) with
      | none =>
        simp [splitCropAux, hm, ih]
      | some v =>
        obtain ⟨co, m, r2⟩ := v
        have hs := (matchMarkerAt_eq hm).1
        simp only [splitCropAux, hm, List.flatten_cons, ih, List.reverse_nil,
          List.nil_append]
        rw [hs]

theorem splitCrop_join (s : List Char) : (splitCrop s).flatten = s := by
  simpa using splitCropAux_join s.length [] s

theorem classifyPart_source {p : List Char} {seg : Segment}
    (h : classifyPart p = some seg) : seg.source = p := by
  unfold classifyPart at h
  by_cases hp : p = []
  · simp [hp] at h
  · rw [if_neg hp] at h
    cases hpm : parseMarker p with
    | none => rw [hpm] at h; simp at h; rw [← h]; rfl
    | some co =>
      obtain ⟨a, b, c, d⟩ := co
      rw [hpm] at h
      simp only [Option.some.injEq] at h
      rw [← h]
      rfl

theorem classifyPart_none {p : List Char} (h : classifyPart p = none) :
    p = [] := by
  unfold classifyPart at h
  by_cases hp : p = []
  · exact hp
  · rw [if_neg hp] at h
    cases hpm : parseMarker p with
    | none => rw [hpm] at h; simp at h
    | some co => obtain ⟨a, b, c, d⟩ := co; rw [hpm] at h; simp at h

theorem filterMap_classify_join : ∀ (parts : List (List Char)),
    ((parts.filterMap classifyPart).map Segment.source).flatten = parts.flatten := by
  intro parts
  induction parts with
  | nil => simp
  | cons p rest ih =>
    cases hc : classifyPart p with
    | none =>
      rw [classifyPart_none hc] at *
      simpa [hc] using ih
    | some seg =>
      simp [hc, classifyPart_source hc, ih]

/-- C1: Parser round-trip — for every input string, splitting it on the
marker pattern `[[CROP:d,d,d,d]]` yields a segment sequence such that
concatenating, in order, the text of every text segment and the original
matched substring of every crop segment reconstructs the input exactly. -/
theorem parse_roundtrip (s : List Char) :
    ((segments s).map Segment.source).flatten = s := by
  unfold segments
  rw [filterMap_classify_join, splitCrop_join]

/-! ## The region cropper -/

/-- C3: For every marker with `xmax ≤ xmin` or `ymax ≤ ymin`, and every
source image with positive pixel width and height that decodes
successfully, the crop operation fails with the degenerate-region error and
never returns a cropped region. -/
theorem crop_degenerate (fl : SourceFile) (ymin xmin ymax xmax : ℕ)
    (hdec : fl.decodes = true) (_hw : 0 < fl.width) (_hh : 0 < fl.height)
    (hbox : xmax ≤ xmin ∨ ymax ≤ ymin) :
    cropImage fl ymin xmin ymax xmax = Except.error CropError.DegenerateRegion := by
  have hcond : ((xmax : ℚ) - (xmin : ℚ)) / 1000 * (fl.width : ℚ) ≤ 0 ∨
      ((ymax : ℚ) - (ymin : ℚ)) / 1000 * (fl.height : ℚ) ≤ 0 := by
    rcases hbox with hx | hy
    · left
      have h1 : ((xmax : ℚ) - (xmin : ℚ)) ≤ 0 := by
        have := (Nat.cast_le (α := ℚ)).mpr hx
        linarith
      have h2 : (0 : ℚ) ≤ (fl.width : ℚ) := Nat.cast_nonneg _
      nlinarith
    · right
      have h1 : ((ymax : ℚ) - (ymin : ℚ)) ≤ 0 := by
        have := (Nat.cast_le (α := ℚ)).mpr hy
        linarith
      have h2 : (0 : ℚ) ≤ (fl.height : ℚ) := Nat.cast_nonneg _
      nlinarith
  simp [cropImage, cropImageH, hdec, hcond]

theorem crop_degenerate_witness :
    cropImage ⟨['a'], 100, 100, true, true⟩ 0 5 0 3
      = Except.error CropError.DegenerateRegion :=
  crop_degenerate ⟨['a'], 100, 100, true, true⟩ 0 5 0 3 rfl (by norm_num)
    (by norm_num) (Or.inl (by norm_num))

/-- C8 evidence: on the degenerate-region exit path the decode handle (the
object URL) opened by `cropImage` is NOT released: with no handles open
beforehand, a call on a decodable 100×100 image with the degenerate marker
`[[CROP:0,0,0,0]]` settles with one handle still open.  The source rejects
with "Invalid crop dimensions" and returns without calling
`URL.revokeObjectURL` (the same happens on the null-context and null-blob
paths), contradicting the required release on every exit path. -/
theorem cropImageH_leaves_handle_open :
    cropImageH ⟨['a'], 100, 100, true, true⟩ 0 0 0 0 0
      = (Except.error CropError.DegenerateRegion, 1) := by
  norm_num [cropImageH]

/-! ## Well-formed markers parse, whatever their range -/

theorem expectChar_self (c : Char) (r : List Char) :
    expectChar c (c :: r) = some r := by
  simp [expectChar]

theorem takeDigits_all {ds : List Char} (hds : ∀ c ∈ ds, c.isDigit = true)
    {c0 : Char} (hc0 : c0.isDigit = false) (r : List Char) :
    takeDigits (ds ++ c0 :: r) = (ds, c0 :: r) := by
  induction ds with
  | nil => simp [takeDigits, hc0]
  | cons d ds ih =>
    have hd : d.isDigit = true := hds d (by simp)
    have ih2 := ih fun c hc => hds c (by simp [hc])
    simp [takeDigits, hd, ih2]

theorem matchDigits_all {ds : List Char} (hne : ds ≠ [])
    (hds : ∀ c ∈ ds, c.isDigit = true) {c0 : Char} (hc0 : c0.isDigit = false)
    (r : List Char) : matchDigits (ds ++ c0 :: r) = some (ds, c0 :: r) := by
  unfold matchDigits
  rw [takeDigits_all hds hc0 r]
  cases ds with
  | nil => exact absurd rfl hne
  | cons d ds => rfl

theorem matchMarkerAt_markerText {d1 d2 d3 d4 : List Char}
    (h1 : d1 ≠ []) (h2 : d2 ≠ []) (h3 : d3 ≠ []) (h4 : d4 ≠ [])
    (g1 : ∀ c ∈ d1, c.isDigit = true) (g2 : ∀ c ∈ d2, c.isDigit = true)
    (g3 : ∀ c ∈ d3, c.isDigit = true) (g4 : ∀ c ∈ d4, c.isDigit = true) :
    matchMarkerAt (markerText d1 d2 d3 d4) =
      some ((digitsToNat d1, digitsToNat d2, digitsToNat d3, digitsToNat d4),
        markerText d1 d2 d3 d4, []) := by
  have hcomma : (',' : Char).isDigit = false := by decide
  have hbr : (']' : Char).isDigit = false := by decide
  have hclose : dropLit closeTag closeTag = some [] := by
    simpa using dropLit_self closeTag []
  unfold matchMarkerAt markerText
  simp only [List.append_assoc, List.singleton_append, closeTag,
    List.cons_append, List.nil_append]
  rw [dropLit_self]
  dsimp only
  rw [matchDigits_all h1 g1 hcomma]
  dsimp only
  rw [expectChar_self]
  dsimp only
  rw [matchDigits_all h2 g2 hcomma]
  dsimp only
  rw [expectChar_self]
  dsimp only
  rw [matchDigits_all h3 g3 hcomma]
  dsimp only
  rw [expectChar_self]
  dsimp only
  rw [matchDigits_all h4 g4 hbr]
  dsimp only
  rw [show dropLit [']', ']'] (']' :: [']']) = some [] from hclose]

theorem parseMarker_markerText {d1 d2 d3 d4 : List Char}
    (h1 : d1 ≠ []) (h2 : d2 ≠ []) (h3 : d3 ≠ []) (h4 : d4 ≠ [])
    (g1 : ∀ c ∈ d1, c.isDigit = true) (g2 : ∀ c ∈ d2, c.isDigit = true)
    (g3 : ∀ c ∈ d3, c.isDigit = true) (g4 : ∀ c ∈ d4, c.isDigit = true) :
    parseMarker (markerText d1 d2 d3 d4) =
      some (digitsToNat d1, digitsToNat d2, digitsToNat d3, digitsToNat d4) := by
  unfold parseMarker
  rw [matchMarkerAt_markerText h1 h2 h3 h4 g1 g2 g3 g4]
  rfl

theorem splitCropAux_nil (k : ℕ) : splitCropAux k [] [] = [[]] := by
  cases k <;> simp [splitCropAux]

theorem splitCrop_single {s : List Char} {co : ℕ × ℕ × ℕ × ℕ}
    (h : matchMarkerAt s = some (co, s, [])) :
    splitCrop s = [[], s, []] := by
  have hne : s ≠ [] := (matchMarkerAt_eq h).2
  obtain ⟨c, rest, rfl⟩ := List.exists_cons_of_ne_nil hne
  unfold splitCrop
  simp only [List.length_cons]
  rw [splitCropAux, h]
  simp [splitCropAux_nil]

theorem segments_single {s : List Char} {a b c d : ℕ}
    (hm : matchMarkerAt s = some ((a, b, c, d), s, [])) :
    segments s = [Segment.crop a b c d s] := by
  have hne : s ≠ [] := (matchMarkerAt_eq hm).2
  have hp : parseMarker s = some (a, b, c, d) := by
    unfold parseMarker
    rw [hm]
    rfl
  unfold segments
  rw [splitCrop_single hm]
  simp [classifyPart, hp, hne]

/-- C9 (implicit): the parser classifies every substring of the exact form
`[[CROP:a,b,c,d]]`, for arbitrary non-negative decimal integer literals of
any length — including values greater than 1000 — as a crop segment; the
[0, 1000] range is not enforced at parse time, and out-of-range values flow
unchecked into the pixel-rectangle computation of the crop (here
`[[CROP:…,0,…,2000]]`-style coordinates produce a rectangle twice the
image's size, strictly wider than the image itself). -/
theorem marker_range_unchecked :
    (∀ d1 d2 d3 d4 : List Char,
      d1 ≠ [] → d2 ≠ [] → d3 ≠ [] → d4 ≠ [] →
      (∀ c ∈ d1, c.isDigit = true) → (∀ c ∈ d2, c.isDigit = true) →
      (∀ c ∈ d3, c.isDigit = true) → (∀ c ∈ d4, c.isDigit = true) →
      segments (markerText d1 d2 d3 d4)
        = [Segment.crop (digitsToNat d1) (digitsToNat d2) (digitsToNat d3)
            (digitsToNat d4) (markerText d1 d2 d3 d4)])
    ∧ (∀ fl : SourceFile, fl.decodes = true → fl.rasterOk = true →
      0 < fl.width → 0 < fl.height →
      cropImage fl 0 0 2000 2000
          = Except.ok ⟨0, 0, 2 * (fl.width : ℚ), 2 * (fl.height : ℚ)⟩
        ∧ (fl.width : ℚ) < 2 * (fl.width : ℚ)) := by
  constructor
  · intro d1 d2 d3 d4 h1 h2 h3 h4 g1 g2 g3 g4
    exact segments_single (matchMarkerAt_markerText h1 h2 h3 h4 g1 g2 g3 g4)
  · intro fl hdec hrast hw hh
    have hwq : (0 : ℚ) < (fl.width : ℚ) := by exact_mod_cast hw
    have hhq : (0 : ℚ) < (fl.height : ℚ) := by exact_mod_cast hh
    refine ⟨?_, by nlinarith⟩
    simp only [cropImage, cropImageH, hdec, hrast]
    norm_num
    have hcond : ¬(2 * (fl.width : ℚ) ≤ 0 ∨ 2 * (fl.height : ℚ) ≤ 0) := by
      push_neg
      exact ⟨by nlinarith, by nlinarith⟩
    rw [if_neg hcond]

theorem marker_range_unchecked_witness :
    segments (markerText ['2', '0', '0', '0'] ['3', '0', '0', '0']
        ['4', '0', '0', '0'] ['5', '0', '0', '0'])
      = [Segment.crop 2000 3000 4000 5000
          (markerText ['2', '0', '0', '0'] ['3', '0', '0', '0']
            ['4', '0', '0', '0'] ['5', '0', '0', '0'])]
    ∧ cropImage ⟨['y'], 800, 600, true, true⟩ 0 0 2000 2000
        = Except.ok ⟨0, 0, 1600, 1200⟩ := by
  constructor
  · exact (marker_range_unchecked.1 _ _ _ _ (by decide) (by decide) (by decide)
      (by decide) (by decide) (by decide) (by decide) (by decide)).trans (by decide)
  · have h := (marker_range_unchecked.2 ⟨['y'], 800, 600, true, true⟩ rfl rfl
      (by norm_num) (by norm_num)).1
    rw [h]
    norm_num

/-! ## Lemmas about the layout assembler

The assembler only ever appends to `docChildren`, so its processing of one
file is independent of the paragraphs accumulated before it. -/

theorem flushParagraph_append (paras0 paras : List Para) (runs : List Run) :
    flushParagraph (paras0 ++ paras, runs)
      = (paras0 ++ (flushParagraph (paras, runs)).1,
         (flushParagraph (paras, runs)).2) := by
  by_cases h : runs = [] <;> simp [flushParagraph, h]

theorem processLines_append (lines : List (List Char)) :
    ∀ (paras0 paras : List Para) (runs : List Run),
    processLines lines (paras0 ++ paras, runs)
      = (paras0 ++ (processLines lines (paras, runs)).1,
         (processLines lines (paras, runs)).2) := by
  induction lines with
  | nil => intro paras0 paras runs; simp [processLines]
  | cons l rest ih =>
    intro paras0 paras runs
    cases rest with
    | nil =>
      by_cases hl : l = [] <;> simp [processLines, hl, pushRun]
    | cons l2 rest2 =>
      by_cases hl : l = []
      · simp only [processLines, if_pos hl]
        rw [flushParagraph_append]
        simpa using ih paras0 _ _
      · simp only [processLines, if_neg hl, pushRun]
        rw [flushParagraph_append]
        simpa using ih paras0 _ _

theorem processTextPart_append (p : List Char) (paras0 paras : List Para)
    (runs : List Run) :
    processTextPart p (paras0 ++ paras, runs)
      = (paras0 ++ (processTextPart p (paras, runs)).1,
         (processTextPart p (paras, runs)).2) := by
  unfold processTextPart
  exact processLines_append _ paras0 paras runs

theorem processCropPart_append (fl : SourceFile) (y x ym xm : ℕ)
    (paras0 paras : List Para) (runs : List Run) :
    processCropPart fl y x ym xm (paras0 ++ paras, runs)
      = (paras0 ++ (processCropPart fl y x ym xm (paras, runs)).1,
         (processCropPart fl y x ym xm (paras, runs)).2) := by
  cases hc : cropImage fl y x ym xm <;> simp [processCropPart, hc, pushRun]

theorem processParts_append (fl : SourceFile) :
    ∀ (parts : List (List Char)) (paras0 paras : List Para) (runs : List Run),
    processParts fl parts (paras0 ++ paras, runs)
      = (paras0 ++ (processParts fl parts (paras, runs)).1,
         (processParts fl parts (paras, runs)).2) := by
  intro parts
  induction parts with
  | nil => intro paras0 paras runs; simp [processParts]
  | cons p rest ih =>
    intro paras0 paras runs
    by_cases hp : p = []
    · simp only [processParts, if_pos hp]
      exact ih paras0 paras runs
    · cases hpm : parseMarker p with
      | some co =>
        obtain ⟨y, x, ym, xm⟩ := co
        simp only [processParts, if_neg hp, hpm]
        rw [processCropPart_append]
        simpa using ih paras0 _ _
      | none =>
        simp only [processParts, if_neg hp, hpm]
        rw [processTextPart_append]
        simpa using ih paras0 _ _

theorem processFile_eq (f : UploadedFile) (paras : List Para) :
    processFile f paras = paras ++ fileBlock f := by
  simp only [processFile, fileBlock]
  rw [processParts_append f.file _ paras [Para.header (sourceLabel ++ f.file.name)] [],
    flushParagraph_append]

theorem fileBlock_eq (f : UploadedFile) :
    fileBlock f = Para.header (sourceLabel ++ f.file.name) :: bodyParas f := by
  unfold fileBlock bodyParas
  have h := processParts_append f.file (splitCrop (f.extractedText.getD []))
    [Para.header (sourceLabel ++ f.file.name)] [] []
  simp only [List.append_nil] at h
  rw [h, flushParagraph_append]
  simp

theorem assembleFiles_eq : ∀ (files : List UploadedFile) (paras : List Para),
    assembleFiles files paras = paras ++ joinBlocks files := by
  intro files
  induction files with
  | nil => intro paras; simp [assembleFiles, joinBlocks]
  | cons f rest ih =>
    intro paras
    cases rest with
    | nil =>
      have heq : assembleFiles [f] paras = processFile f paras := rfl
      rw [heq, processFile_eq]
      simp [joinBlocks]
    | cons g rest2 =>
      have heq : assembleFiles (f :: g :: rest2) paras
          = assembleFiles (g :: rest2) (processFile f paras ++ [Para.pageBreak]) := rfl
      rw [heq, ih, processFile_eq]
      simp [joinBlocks]

theorem flushParagraph_body {paras : List Para} {runs : List Run}
    (h : ∀ p ∈ paras, ∃ rs, p = Para.body rs) :
    ∀ p ∈ (flushParagraph (paras, runs)).1, ∃ rs, p = Para.body rs := by
  by_cases hr : runs = []
  · simpa [flushParagraph, hr] using h
  · intro p hp
    simp only [flushParagraph] at hp
    rw [if_neg hr] at hp
    simp only [List.mem_append, List.mem_singleton] at hp
    rcases hp with hp | hp
    · exact h p hp
    · exact ⟨runs, hp⟩

theorem processLines_body (lines : List (List Char)) :
    ∀ (paras : List Para) (runs : List Run),
    (∀ p ∈ paras, ∃ rs, p = Para.body rs) →
    ∀ p ∈ (processLines lines (paras, runs)).1, ∃ rs, p = Para.body rs := by
  induction lines with
  | nil => intro paras runs h; simpa [processLines] using h
  | cons l rest ih =>
    intro paras runs h
    cases rest with
    | nil =>
      by_cases hl : l = [] <;> simpa [processLines, hl, pushRun] using h
    | cons l2 rest2 =>
      by_cases hl : l = []
      · simp only [processLines, if_pos hl]
        intro p hp
        exact ih _ _ (flushParagraph_body h) p (by simpa using hp)
      · simp only [processLines, if_neg hl, pushRun]
        intro p hp
        exact ih _ _ (flushParagraph_body h) p (by simpa using hp)

theorem processCropPart_eq (fl : SourceFile) (y x ym xm : ℕ)
    (paras : List Para) (runs : List Run) :
    ∃ r, processCropPart fl y x ym xm (paras, runs) = (paras, runs ++ [r]) := by
  cases hc : cropImage fl y x ym xm with
  | error e => exact ⟨Run.missingImage, by simp [processCropPart, hc, pushRun]⟩
  | ok region =>
    exact ⟨Run.imageRun region
        (max 20 (((xm : ℚ) - (x : ℚ)) / 1000 * MAX_PAGE_WIDTH))
        (max 20 (((ym : ℚ) - (y : ℚ)) / 1000 * (MAX_PAGE_WIDTH * PAGE_ASPECT))),
      by simp [processCropPart, hc, pushRun]⟩

theorem processParts_body (fl : SourceFile) :
    ∀ (parts : List (List Char)) (paras : List Para) (runs : List Run),
    (∀ p ∈ paras, ∃ rs, p = Para.body rs) →
    ∀ p ∈ (processParts fl parts (paras, runs)).1, ∃ rs, p = Para.body rs := by
  intro parts
  induction parts with
  | nil => intro paras runs h; simpa [processParts] using h
  | cons q rest ih =>
    intro paras runs h
    by_cases hq : q = []
    · simp only [processParts, if_pos hq]
      exact ih paras runs h
    · cases hpm : parseMarker q with
      | some co =>
        obtain ⟨y, x, ym, xm⟩ := co
        simp only [processParts, if_neg hq, hpm]
        obtain ⟨r, hr⟩ := processCropPart_eq fl y x ym xm paras runs
        rw [hr]
        exact ih paras (runs ++ [r]) h
      | none =>
        simp only [processParts, if_neg hq, hpm]
        intro p hp
        have hT : ∀ p ∈ (processTextPart q (paras, runs)).1, ∃ rs, p = Para.body rs := by
          simpa [processTextPart] using processLines_body (splitNl q) paras runs h
        exact ih _ _ hT p (by simpa using hp)

theorem bodyParas_body (f : UploadedFile) :
    ∀ p ∈ bodyParas f, ∃ rs, p = Para.body rs := by
  unfold bodyParas
  intro p hp
  have h1 := processParts_body f.file (splitCrop (f.extractedText.getD [])) [] []
    (by simp)
  exact flushParagraph_body h1 p (by simpa using hp)

theorem count_pageBreak_fileBlock (f : UploadedFile) :
    (fileBlock f).count Para.pageBreak = 0 := by
  rw [fileBlock_eq]
  have hnot : Para.pageBreak ∉ bodyParas f := by
    intro hmem
    obtain ⟨rs, hbody⟩ := bodyParas_body f _ hmem
    exact Para.noConfusion hbody
  simp [List.count_cons, List.count_eq_zero.mpr hnot]

theorem count_pageBreak_joinBlocks : ∀ (files : List UploadedFile),
    (joinBlocks files).count Para.pageBreak = files.length - 1 := by
  intro files
  induction files with
  | nil => simp [joinBlocks]
  | cons f rest ih =>
    cases rest with
    | nil => simp [joinBlocks, count_pageBreak_fileBlock]
    | cons g rest2 =>
      simp only [joinBlocks, List.count_append, count_pageBreak_fileBlock, ih]
      simp [List.count_cons]
      omega

theorem filter_header_fileBlock (f : UploadedFile) :
    (fileBlock f).filter isHeaderPara
      = [Para.header (sourceLabel ++ f.file.name)] := by
  rw [fileBlock_eq]
  have hbody : (bodyParas f).filter isHeaderPara = [] := by
    rw [List.filter_eq_nil_iff]
    intro p hp
    obtain ⟨rs, rfl⟩ := bodyParas_body f p hp
    simp [isHeaderPara]
  simp [List.filter_cons, isHeaderPara, hbody]

theorem filter_header_joinBlocks : ∀ (files : List UploadedFile),
    (joinBlocks files).filter isHeaderPara
      = files.map fun f => Para.header (sourceLabel ++ f.file.name) := by
  intro files
  induction files with
  | nil => simp [joinBlocks]
  | cons f rest ih =>
    cases rest with
    | nil => simp [joinBlocks, filter_header_fileBlock]
    | cons g rest2 =>
      simp only [joinBlocks, List.filter_append, filter_header_fileBlock, ih]
      simp [isHeaderPara]

/-! ## The claims about the assembler -/

/-- C4: For every file and every crop segment whose crop fails (for any
reason), the assembler appends a "[MISSING IMAGE]" text run to the current
paragraph buffer in place of the image run, keeps all runs already
buffered, and continues with the remaining parts; and no crop failure
propagates — whenever at least one eligible file exists,
`generateAndDownloadDocx` produces a document. -/
theorem crop_failure_recovered :
    (∀ (fl : SourceFile) (ymin xmin ymax xmax : ℕ) (e : CropError)
        (paras : List Para) (runs : List Run),
      cropImage fl ymin xmin ymax xmax = Except.error e →
      processCropPart fl ymin xmin ymax xmax (paras, runs)
        = (paras, runs ++ [Run.missingImage]))
    ∧ (∀ (fl : SourceFile) (p : List Char) (ymin xmin ymax xmax : ℕ)
        (e : CropError) (rest : List (List Char)) (paras : List Para)
        (runs : List Run),
      parseMarker p = some (ymin, xmin, ymax, xmax) →
      cropImage fl ymin xmin ymax xmax = Except.error e →
      processParts fl (p :: rest) (paras, runs)
        = processParts fl rest (paras, runs ++ [Run.missingImage]))
    ∧ (∀ files : List UploadedFile,
      files.filter (fun f => isEligible f) ≠ [] →
      ∃ d, generateAndDownloadDocx files = Except.ok d) := by
  refine ⟨?_, ?_, ?_⟩
  · intro fl y x ym xm e paras runs hc
    simp [processCropPart, hc, pushRun]
  · intro fl p y x ym xm e rest paras runs hpm hc
    have hne : p ≠ [] := by
      intro hp
      have hnone : parseMarker ([] : List Char) = none := rfl
      rw [hp, hnone] at hpm
      exact Option.noConfusion hpm
    simp only [processParts, if_neg hne, hpm]
    simp [processCropPart, hc, pushRun]
  · intro files hne
    have hlen : ¬(files.filter (fun f => isEligible f)).length = 0 := by
      intro h0
      exact hne (List.length_eq_zero.mp h0)
    simp only [generateAndDownloadDocx]
    rw [if_neg hlen]
    exact ⟨_, rfl⟩

theorem crop_failure_recovered_witness :
    processCropPart ⟨['a'], 100, 100, true, true⟩ 0 0 0 0
        ([Para.title], [Run.textRun ['x']])
      = ([Para.title], [Run.textRun ['x'], Run.missingImage])
    ∧ processParts ⟨['a'], 100, 100, true, true⟩
        ["[[CROP:0,0,0,0]]".toList, ['z']] ([], [])
      = processParts ⟨['a'], 100, 100, true, true⟩ [['z']] ([], [Run.missingImage])
    ∧ ∃ d, generateAndDownloadDocx
        [⟨['1'], ⟨['a'], 100, 100, true, true⟩, ['p'], ProcessingStatus.COMPLETED,
          some ['h', 'i'], none⟩] = Except.ok d := by
  have hc : cropImage ⟨['a'], 100, 100, true, true⟩ 0 0 0 0
      = Except.error CropError.DegenerateRegion := by
    norm_num [cropImage, cropImageH]
  refine ⟨?_, ?_, ?_⟩
  · simpa using crop_failure_recovered.1 _ 0 0 0 0 _ [Para.title] [Run.textRun ['x']] hc
  · simpa using crop_failure_recovered.2.1 _ "[[CROP:0,0,0,0]]".toList 0 0 0 0 _
      [['z']] [] [] (by decide) hc
  · exact crop_failure_recovered.2.2 _ (by decide)

/-- C5: The assembler fails, signalling `NoContent` and producing no
document, exactly when its sequence of eligible files is empty (the caller
is expected to have already filtered to files with non-empty annotated
text, so the inputs are assumed eligible); for every non-empty such input a
document is produced. -/
theorem no_content_iff :
    (∀ files : List UploadedFile, (∀ f ∈ files, isEligible f = true) →
      (generateAndDownloadDocx files = Except.error GenError.NoContent ↔ files = []))
    ∧ (∀ files : List UploadedFile, files ≠ [] →
      (∀ f ∈ files, isEligible f = true) →
      ∃ d, generateAndDownloadDocx files = Except.ok d) := by
  constructor
  · intro files h
    simp only [generateAndDownloadDocx, List.filter_eq_self.mpr h]
    constructor
    · intro he
      by_cases hl : files.length = 0
      · exact List.length_eq_zero.mp hl
      · rw [if_neg hl] at he
        exact Except.noConfusion he
    · intro he
      subst he
      simp
  · intro files hne h
    simp only [generateAndDownloadDocx, List.filter_eq_self.mpr h]
    rw [if_neg (fun h0 => hne (List.length_eq_zero.mp h0))]
    exact ⟨_, rfl⟩

theorem no_content_iff_witness :
    (generateAndDownloadDocx [] = Except.error GenError.NoContent
      ↔ ([] : List UploadedFile) = [])
    ∧ ∃ d, generateAndDownloadDocx
        [⟨['1'], ⟨['a'], 10, 10, true, true⟩, ['p'], ProcessingStatus.IDLE,
          some ['h'], none⟩] = Except.ok d :=
  ⟨no_content_iff.1 [] (by simp),
   no_content_iff.2 _ (by simp) (by decide)⟩

/-- C7: For every successfully cropped marker, the embedded image run's
display size is `max 20 ((xmax-xmin)/1000 * MAX_PAGE_WIDTH)` by
`max 20 ((ymax-ymin)/1000 * (MAX_PAGE_WIDTH * PAGE_ASPECT))` in page units,
hence at least 20 page units in each dimension, never zero-sized. -/
theorem image_run_display_size (fl : SourceFile) (ymin xmin ymax xmax : ℕ)
    (region : CroppedRegion) (paras : List Para) (runs : List Run)
    (hcrop : cropImage fl ymin xmin ymax xmax = Except.ok region) :
    processCropPart fl ymin xmin ymax xmax (paras, runs)
      = (paras, runs ++ [Run.imageRun region
          (max 20 (((xmax : ℚ) - (xmin : ℚ)) / 1000 * MAX_PAGE_WIDTH))
          (max 20 (((ymax : ℚ) - (ymin : ℚ)) / 1000
            * (MAX_PAGE_WIDTH * PAGE_ASPECT)))])
    ∧ (20 : ℚ) ≤ max 20 (((xmax : ℚ) - (xmin : ℚ)) / 1000 * MAX_PAGE_WIDTH)
    ∧ (20 : ℚ) ≤ max 20 (((ymax : ℚ) - (ymin : ℚ)) / 1000
        * (MAX_PAGE_WIDTH * PAGE_ASPECT)) := by
  refine ⟨?_, le_max_left _ _, le_max_left _ _⟩
  simp [processCropPart, hcrop, pushRun]

theorem image_run_display_size_witness :
    processCropPart ⟨['z'], 1000, 1000, true, true⟩ 999 999 1000 1000 ([], [])
      = ([], [Run.imageRun ⟨999, 999, 1, 1⟩ 20 20]) := by
  have hcrop : cropImage ⟨['z'], 1000, 1000, true, true⟩ 999 999 1000 1000
      = Except.ok ⟨999, 999, 1, 1⟩ := by
    norm_num [cropImage, cropImageH]
  have h := (image_run_display_size ⟨['z'], 1000, 1000, true, true⟩
    999 999 1000 1000 ⟨999, 999, 1, 1⟩ [] [] hcrop).1
  rw [h]
  norm_num [MAX_PAGE_WIDTH, PAGE_ASPECT]

/-- C2: Assembling a single file whose annotated text is
`"A\nB[[CROP:100,100,200,200]]C"`, under the precondition that the crop of
that marker succeeds, produces exactly one paragraph with the text run "A",
then one paragraph containing, in order, text run "B", one image run, and
text run "C" — no paragraph break immediately before or after the crop
marker. -/
theorem assemble_single_inline_crop (fl : SourceFile) (i purl : List Char)
    (stat : ProcessingStatus) (em : Option (List Char)) (region : CroppedRegion)
    (hcrop : cropImage fl 100 100 200 200 = Except.ok region) :
    generateAndDownloadDocx
        [⟨i, fl, purl, stat, some "A\nB[[CROP:100,100,200,200]]C".toList, em⟩]
      = Except.ok ⟨[Para.title, Para.header (sourceLabel ++ fl.name),
          Para.body [Run.textRun ['A']],
          Para.body [Run.textRun ['B'], Run.imageRun region 50 (707 / 10),
            Run.textRun ['C']]]⟩ := by
  have hsplit : splitCrop ['A', '\n', 'B', '[', '[', 'C', 'R', 'O', 'P', ':', '1', '0', '0', ',', '1', '0', '0', ',', '2', '0', '0', ',', '2', '0', '0', ']', ']', 'C']
      = [['A', '\n', 'B'], ['[', '[', 'C', 'R', 'O', 'P', ':', '1', '0', '0', ',', '1', '0', '0', ',', '2', '0', '0', ',', '2', '0', '0', ']', ']'], ['C']] := by decide
  have hm1 : parseMarker ['A', '\n', 'B'] = none := by decide
  have hm2 : parseMarker ['[', '[', 'C', 'R', 'O', 'P', ':', '1', '0', '0', ',', '1', '0', '0', ',', '2', '0', '0', ',', '2', '0', '0', ']', ']']
      = some (100, 100, 200, 200) := by decide
  have hm3 : parseMarker ['C'] = none := by decide
  have hnl1 : splitNl ['A', '\n', 'B'] = [['A'], ['B']] := by decide
  have hnl3 : splitNl ['C'] = [['C']] := by decide
  have heli : isEligible ⟨i, fl, purl, stat,
      some "A\nB[[CROP:100,100,200,200]]C".toList, em⟩ = true := by
    simp [isEligible]
  simp only [generateAndDownloadDocx, List.filter_cons, heli, if_true,
    List.filter_nil, List.length_cons, List.length_nil]
  norm_num
  have hasm : assembleFiles
      [⟨i, fl, purl, stat, some ['A', '\n', 'B', '[', '[', 'C', 'R', 'O', 'P', ':', '1', '0', '0', ',', '1', '0', '0', ',', '2', '0', '0', ',', '2', '0', '0', ']', ']', 'C'], em⟩]
      [Para.title]
      = processFile ⟨i, fl, purl, stat,
          some ['A', '\n', 'B', '[', '[', 'C', 'R', 'O', 'P', ':', '1', '0', '0', ',', '1', '0', '0', ',', '2', '0', '0', ',', '2', '0', '0', ']', ']', 'C'], em⟩ [Para.title] := rfl
  rw [hasm]
  simp only [processFile, Option.getD_some]
  rw [hsplit]
  simp only [processParts, processTextPart, hm1, hm2, hm3, hnl1, hnl3,
    processLines, processCropPart, hcrop, pushRun, flushParagraph,
    List.cons_ne_nil, if_false, if_true]
  norm_num [MAX_PAGE_WIDTH, PAGE_ASPECT]
  simp

theorem assemble_single_inline_crop_witness :
    generateAndDownloadDocx
        [⟨['1'], ⟨['i', 'm', 'g'], 1000, 1000, true, true⟩, ['p'],
          ProcessingStatus.COMPLETED,
          some "A\nB[[CROP:100,100,200,200]]C".toList, none⟩]
      = Except.ok ⟨[Para.title,
          Para.header (sourceLabel ++ ['i', 'm', 'g']),
          Para.body [Run.textRun ['A']],
          Para.body [Run.textRun ['B'],
            Run.imageRun ⟨100, 100, 100, 100⟩ 50 (707 / 10),
            Run.textRun ['C']]]⟩ := by
  have hcrop : cropImage ⟨['i', 'm', 'g'], 1000, 1000, true, true⟩ 100 100 200 200
      = Except.ok ⟨100, 100, 100, 100⟩ := by
    norm_num [cropImage, cropImageH]
  exact assemble_single_inline_crop _ _ _ _ _ _ hcrop

/-- C6: For every sequence of n ≥ 1 eligible files, the produced document
is one title paragraph, then for each file in input order a header
paragraph bearing that file's display name followed by that file's body
paragraphs, with exactly one page-break paragraph between consecutive
files (n-1 page breaks in total, none after the last file). -/
theorem document_structure (files : List UploadedFile) (hne : files ≠ [])
    (hel : ∀ f ∈ files, isEligible f = true) :
    generateAndDownloadDocx files = Except.ok ⟨Para.title :: joinBlocks files⟩
    ∧ (∀ f ∈ files,
        fileBlock f = Para.header (sourceLabel ++ f.file.name) :: bodyParas f
        ∧ ∀ p ∈ bodyParas f, ∃ rs, p = Para.body rs)
    ∧ countPageBreaks ⟨Para.title :: joinBlocks files⟩ = files.length - 1 := by
  refine ⟨?_, fun f _ => ⟨fileBlock_eq f, bodyParas_body f⟩, ?_⟩
  · simp only [generateAndDownloadDocx, List.filter_eq_self.mpr hel]
    rw [if_neg (fun h0 => hne (List.length_eq_zero.mp h0)), assembleFiles_eq]
    rfl
  · unfold countPageBreaks
    rw [show (Para.title :: joinBlocks files).count Para.pageBreak
        = (joinBlocks files).count Para.pageBreak from by simp [List.count_cons]]
    exact count_pageBreak_joinBlocks files

theorem document_structure_witness :
    generateAndDownloadDocx
        [⟨['1'], ⟨['x'], 800, 600, true, true⟩, ['p'], ProcessingStatus.COMPLETED,
          some ['H', 'e', 'l', 'l', 'o'], none⟩,
         ⟨['2'], ⟨['y'], 1000, 1000, true, true⟩, ['q'], ProcessingStatus.ERROR,
          some ['[', '[', 'C', 'R', 'O', 'P', ':', '0', ',', '0', ',', '5', '0', '0', ',', '5', '0', '0', ']', ']'], none⟩]
      = Except.ok ⟨[Para.title,
          Para.header (sourceLabel ++ ['x']),
          Para.body [Run.textRun ['H', 'e', 'l', 'l', 'o']],
          Para.pageBreak,
          Para.header (sourceLabel ++ ['y']),
          Para.body [Run.imageRun ⟨0, 0, 500, 500⟩ 250 (707 / 2)]]⟩
    ∧ countHeaders ⟨[Para.title,
          Para.header (sourceLabel ++ ['x']),
          Para.body [Run.textRun ['H', 'e', 'l', 'l', 'o']],
          Para.pageBreak,
          Para.header (sourceLabel ++ ['y']),
          Para.body [Run.imageRun ⟨0, 0, 500, 500⟩ 250 (707 / 2)]]⟩ = 2
    ∧ countPageBreaks ⟨[Para.title,
          Para.header (sourceLabel ++ ['x']),
          Para.body [Run.textRun ['H', 'e', 'l', 'l', 'o']],
          Para.pageBreak,
          Para.header (sourceLabel ++ ['y']),
          Para.body [Run.imageRun ⟨0, 0, 500, 500⟩ 250 (707 / 2)]]⟩ = 1
    ∧ countImageRuns ⟨[Para.title,
          Para.header (sourceLabel ++ ['x']),
          Para.body [Run.textRun ['H', 'e', 'l', 'l', 'o']],
          Para.pageBreak,
          Para.header (sourceLabel ++ ['y']),
          Para.body [Run.imageRun ⟨0, 0, 500, 500⟩ 250 (707 / 2)]]⟩ = 1 := by
  have h := (document_structure
    [⟨['1'], ⟨['x'], 800, 600, true, true⟩, ['p'], ProcessingStatus.COMPLETED,
      some ['H', 'e', 'l', 'l', 'o'], none⟩,
     ⟨['2'], ⟨['y'], 1000, 1000, true, true⟩, ['q'], ProcessingStatus.ERROR,
      some ['[', '[', 'C', 'R', 'O', 'P', ':', '0', ',', '0', ',', '5', '0', '0', ',', '5', '0', '0', ']', ']'], none⟩]
    (by simp) (by decide)).1
  have hbX : fileBlock ⟨['1'], ⟨['x'], 800, 600, true, true⟩, ['p'],
      ProcessingStatus.COMPLETED, some ['H', 'e', 'l', 'l', 'o'], none⟩
      = [Para.header (sourceLabel ++ ['x']),
         Para.body [Run.textRun ['H', 'e', 'l', 'l', 'o']]] := by
    have hs : splitCrop ['H', 'e', 'l', 'l', 'o'] = [['H', 'e', 'l', 'l', 'o']] := by decide
    have hm : parseMarker ['H', 'e', 'l', 'l', 'o'] = none := by decide
    have hnl : splitNl ['H', 'e', 'l', 'l', 'o'] = [['H', 'e', 'l', 'l', 'o']] := by decide
    simp only [fileBlock, Option.getD_some]
    rw [hs]
    simp [processParts, hm, processTextPart, hnl, processLines, pushRun, flushParagraph]
  have hcrop : cropImage ⟨['y'], 1000, 1000, true, true⟩ 0 0 500 500
      = Except.ok ⟨0, 0, 500, 500⟩ := by
    norm_num [cropImage, cropImageH]
  have hbY : fileBlock ⟨['2'], ⟨['y'], 1000, 1000, true, true⟩, ['q'],
      ProcessingStatus.ERROR,
      some ['[', '[', 'C', 'R', 'O', 'P', ':', '0', ',', '0', ',', '5', '0', '0', ',', '5', '0', '0', ']', ']'], none⟩
      = [Para.header (sourceLabel ++ ['y']),
         Para.body [Run.imageRun ⟨0, 0, 500, 500⟩ 250 (707 / 2)]] := by
    have hs : splitCrop ['[', '[', 'C', 'R', 'O', 'P', ':', '0', ',', '0', ',', '5', '0', '0', ',', '5', '0', '0', ']', ']']
        = [[], ['[', '[', 'C', 'R', 'O', 'P', ':', '0', ',', '0', ',', '5', '0', '0', ',', '5', '0', '0', ']', ']'], []] := by decide
    have hm : parseMarker ['[', '[', 'C', 'R', 'O', 'P', ':', '0', ',', '0', ',', '5', '0', '0', ',', '5', '0', '0', ']', ']']
        = some (0, 0, 500, 500) := by decide
    simp only [fileBlock, Option.getD_some]
    rw [hs]
    simp only [processParts, hm, processCropPart, hcrop, pushRun, flushParagraph,
      List.cons_ne_nil, if_false]
    norm_num [MAX_PAGE_WIDTH, PAGE_ASPECT]
  rw [show joinBlocks
      [⟨['1'], ⟨['x'], 800, 600, true, true⟩, ['p'], ProcessingStatus.COMPLETED,
        some ['H', 'e', 'l', 'l', 'o'], none⟩,
       ⟨['2'], ⟨['y'], 1000, 1000, true, true⟩, ['q'], ProcessingStatus.ERROR,
        some ['[', '[', 'C', 'R', 'O', 'P', ':', '0', ',', '0', ',', '5', '0', '0', ',', '5', '0', '0', ']', ']'], none⟩]
      = fileBlock ⟨['1'], ⟨['x'], 800, 600, true, true⟩, ['p'], ProcessingStatus.COMPLETED,
          some ['H', 'e', 'l', 'l', 'o'], none⟩ ++ [Para.pageBreak]
        ++ fileBlock ⟨['2'], ⟨['y'], 1000, 1000, true, true⟩, ['q'], ProcessingStatus.ERROR,
          some ['[', '[', 'C', 'R', 'O', 'P', ':', '0', ',', '0', ',', '5', '0', '0', ',', '5', '0', '0', ']', ']'], none⟩
      from rfl, hbX, hbY] at h
  refine ⟨by simpa using h, by decide, by decide, by decide⟩

/-- C10 (implicit): eligibility of a file for document assembly is
determined solely by its `extractedText` field being a non-empty string;
the file's `status` field is never consulted — changing every status leaves
the produced document unchanged, and the headers of the document are, in
order, exactly those of the input list restricted to files with non-empty
extracted text. -/
theorem eligibility_ignores_status :
    (∀ (f : UploadedFile) (s : ProcessingStatus),
      isEligible {f with status := s} = isEligible f)
    ∧ (∀ (files : List UploadedFile) (σ : UploadedFile → ProcessingStatus),
      generateAndDownloadDocx (files.map fun f => {f with status := σ f})
        = generateAndDownloadDocx files)
    ∧ (∀ (files : List UploadedFile) (d : Document),
      generateAndDownloadDocx files = Except.ok d →
      d.children.filter isHeaderPara
        = (files.filter fun f => isEligible f).map
            fun f => Para.header (sourceLabel ++ f.file.name)) := by
  have hjoin : ∀ (σ : UploadedFile → ProcessingStatus) (l : List UploadedFile),
      joinBlocks (l.map fun f => {f with status := σ f}) = joinBlocks l := by
    intro σ l
    induction l with
    | nil => rfl
    | cons f rest ih =>
      cases rest with
      | nil => rfl
      | cons g rest2 =>
        simp only [List.map_cons, joinBlocks] at ih ⊢
        rw [ih]
        rfl
  refine ⟨fun f s => rfl, ?_, ?_⟩
  · intro files σ
    have hfil : (files.map fun f => {f with status := σ f}).filter (fun f => isEligible f)
        = (files.filter fun f => isEligible f).map fun f => {f with status := σ f} := by
      rw [List.filter_map]
      congr 1
    simp only [generateAndDownloadDocx, hfil, List.length_map]
    by_cases hl : (files.filter fun f => isEligible f).length = 0
    · rw [if_pos hl, if_pos hl]
    · rw [if_neg hl, if_neg hl, assembleFiles_eq, assembleFiles_eq, hjoin]
  · intro files d hd
    simp only [generateAndDownloadDocx] at hd
    by_cases hl : (files.filter fun f => isEligible f).length = 0
    · rw [if_pos hl] at hd
      exact Except.noConfusion hd
    · rw [if_neg hl] at hd
      injection hd with hd
      rw [← hd, assembleFiles_eq]
      show ([Para.title] ++ joinBlocks _).filter isHeaderPara = _
      rw [List.filter_append, filter_header_joinBlocks]
      simp [isHeaderPara]

theorem eligibility_ignores_status_witness :
    isEligible ⟨['1'], ⟨['a'], 10, 10, true, true⟩, ['p'],
        ProcessingStatus.ERROR, some ['H'], none⟩
      = isEligible ⟨['1'], ⟨['a'], 10, 10, true, true⟩, ['p'],
        ProcessingStatus.IDLE, some ['H'], none⟩
    ∧ generateAndDownloadDocx
        (([⟨['1'], ⟨['a'], 10, 10, true, true⟩, ['p'], ProcessingStatus.ERROR,
            some ['H'], none⟩,
          ⟨['2'], ⟨['b'], 10, 10, true, true⟩, ['q'], ProcessingStatus.COMPLETED,
            none, none⟩] : List UploadedFile).map
          fun f => {f with status := ProcessingStatus.PROCESSING})
      = generateAndDownloadDocx
        [⟨['1'], ⟨['a'], 10, 10, true, true⟩, ['p'], ProcessingStatus.ERROR,
            some ['H'], none⟩,
         ⟨['2'], ⟨['b'], 10, 10, true, true⟩, ['q'], ProcessingStatus.COMPLETED,
            none, none⟩]
    ∧ (Document.mk [Para.title, Para.header (sourceLabel ++ ['a']),
          Para.body [Run.textRun ['H']]]).children.filter isHeaderPara
      = [Para.header (sourceLabel ++ ['a'])] := by
  refine ⟨eligibility_ignores_status.1 ⟨['1'], ⟨['a'], 10, 10, true, true⟩, ['p'],
      ProcessingStatus.IDLE, some ['H'], none⟩ ProcessingStatus.ERROR,
    eligibility_ignores_status.2.1 _ (fun _ => ProcessingStatus.PROCESSING), ?_⟩
  have hd : generateAndDownloadDocx
      [⟨['1'], ⟨['a'], 10, 10, true, true⟩, ['p'], ProcessingStatus.ERROR,
          some ['H'], none⟩,
       ⟨['2'], ⟨['b'], 10, 10, true, true⟩, ['q'], ProcessingStatus.COMPLETED,
          none, none⟩]
      = Except.ok ⟨[Para.title, Para.header (sourceLabel ++ ['a']),
          Para.body [Run.textRun ['H']]]⟩ := rfl
  exact (eligibility_ignores_status.2.2 _ _ hd).trans (by decide)

end ImgToWord
